import Mathlib

set_option maxRecDepth 100000

/-!
A shallow embedding of the per-file RAG index manager (`rag.py`) and of the
file-listing endpoint of `server.py`: manifest tracking, stem sanitizing,
collision suffixing, index build-or-load, batch partitioning, and the
category filter of the `/files` route.

File names, manifest entries and directory states are modelled explicitly;
the external collaborators (document loader, embedder, vector store) are
modelled only through their observable success or failure, exactly as the
claims require.
-/

/-- One entry of a manifest, mirroring the dictionaries built by
`_compute_manifest` in `rag.py`:
`{"name": f, "size": st.st_size, "mtime": int(st.st_mtime)}`.
The same record doubles as one directory entry (with stat data) of the
documents directory. -/
structure FileEntry where
  name : String
  size : Nat
  mtime : Nat
deriving DecidableEq, Repr

/-- The documents directory `DOCS_DIR`: its direct entries with their stat
data. `os.listdir` yields each direct entry name exactly once. -/
abbrev Docs := List FileEntry

/-- Lexicographic comparison of character lists by code point: exactly the
order Python uses to compare strings. -/
def charListLe : List Char → List Char → Bool
  | [], _ => true
  | _ :: _, [] => false
  | a :: as, b :: bs =>
    if a.toNat < b.toNat then true
    else if b.toNat < a.toNat then false
    else charListLe as bs

/-- Python string `<=`, by code points. -/
def strLe (a b : String) : Bool :=
  charListLe a.toList b.toList

/-- Stable insertion of one element into a list: placed before the first
element it compares `le` to, hence after all earlier equal elements. -/
def insertLe {α : Type} (le : α → α → Bool) (x : α) : List α → List α
  | [] => [x]
  | y :: ys => if le x y then x :: y :: ys else y :: insertLe le x ys

/-- Stable sort by `le` (insertion sort). Python's `sorted` is also a stable
sort, and any two stable sorts of the same list by the same key agree, so
this is extensionally the sort used by `rag.py`. -/
def sortLe {α : Type} (le : α → α → Bool) : List α → List α
  | [] => []
  | x :: xs => insertLe le x (sortLe le xs)

/-- The filter applied by `_supported_files` to a directory entry name:
skip names containing a colon or ending in `Zone.Identifier`, keep names
whose lowercased form ends in `.txt`, `.pdf` or `.md`. -/
def isSupportedName (s : String) : Bool :=
  !(s.toList.contains ':') && !("Zone.Identifier".toList.isSuffixOf s.toList) &&
    (".txt".toList.isSuffixOf (s.toList.map Char.toLower) ||
     ".pdf".toList.isSuffixOf (s.toList.map Char.toLower) ||
     ".md".toList.isSuffixOf (s.toList.map Char.toLower))

/-- `_supported_files`: the supported directory entry names, sorted
(Python `sorted` on strings, i.e. lexicographic). -/
def supported_files (docs : Docs) : List String :=
  sortLe strLe ((docs.map (fun e => e.name)).filter isSupportedName)

/-- The `os.stat` call inside `_compute_manifest`: look the name up among
the directory entries; `none` models `FileNotFoundError`. -/
def stat_opt (docs : Docs) (f : String) : Option FileEntry :=
  docs.find? (fun e => e.name == f)

/-- `_compute_manifest`: stat each file, silently dropping a file that
disappeared between listing and stating (its `FileNotFoundError` is caught
and the loop continues). -/
def compute_manifest (docs : Docs) (files : List String) : List FileEntry :=
  files.filterMap (stat_opt docs)

/-- The sort used inside `_manifests_equal`:
`sorted(m, key=lambda x: x["name"])`. -/
def sortByName (m : List FileEntry) : List FileEntry :=
  sortLe (fun x y => strLe x.name y.name) m

/-- `_manifests_equal`: a length check, then equality of the two
name-sorted entry lists. -/
def manifests_equal (a b : List FileEntry) : Bool :=
  decide (a.length = b.length) && decide (sortByName a = sortByName b)

/-- `os.path.basename`: the part of the path after the last separator. -/
def basenameChars (l : List Char) : List Char :=
  (l.reverse.takeWhile (fun c => c != '/')).reverse

/-- `os.path.splitext(b)[0]` on a basename `b`: drop the suffix starting at
the last dot, except when every character before that dot is itself a dot
(so purely dotted leading parts, as in `.bashrc` or `..txt`, keep the whole
name). -/
def splitextStem (b : List Char) : List Char :=
  match b.reverse.dropWhile (fun c => c != '.') with
  | [] => b
  | _ :: restRev => if restRev.all (fun c => c == '.') then b else restRev.reverse

/-- `encode('ascii', 'ignore')`: drop all non-ASCII code points. -/
def asciiFilter (l : List Char) : List Char :=
  l.filter (fun c => decide (c.toNat < 128))

/-- The character class `[A-Za-z0-9._-]` of `_safe_stem`. -/
def isStemChar (c : Char) : Bool :=
  c.isAlphanum || c == '.' || c == '_' || c == '-'

/-- `re.sub(r"[^A-Za-z0-9._-]", "_", norm)`. -/
def replaceInvalid (l : List Char) : List Char :=
  l.map (fun c => if isStemChar c then c else '_')

/-- `re.sub(r"^[^A-Za-z0-9]+", "", safe)`. -/
def trimLead (l : List Char) : List Char :=
  l.dropWhile (fun c => !c.isAlphanum)

/-- `re.sub(r"[^A-Za-z0-9]+$", "", safe)`. -/
def trimTrail (l : List Char) : List Char :=
  (l.reverse.dropWhile (fun c => !c.isAlphanum)).reverse

/-- `re.sub(r"_{2,}", "_", safe)`: collapse every maximal run of two or
more underscores into a single underscore. -/
def collapseUnderscores : List Char → List Char
  | [] => []
  | [c] => [c]
  | c :: d :: rest =>
    if c == '_' && d == '_' then collapseUnderscores (d :: rest)
    else c :: collapseUnderscores (d :: rest)

/-- The cleaned stem computed by `_safe_stem` before the length fallback and
the final truncation: extension stripping, Unicode normalization (modelled
by the ambient `nfkd` function standing for the external
`unicodedata.normalize('NFKD', ·)`), ASCII filtering, character replacement,
trimming, and underscore collapsing. -/
def cleaned_stem (nfkd : List Char → List Char) (filename : List Char) : List Char :=
  collapseUnderscores (trimTrail (trimLead (replaceInvalid
    (asciiFilter (nfkd (splitextStem (basenameChars filename)))))))

/-- `_safe_stem`, parameterized by a model `nfkd` of the external Unicode
NFKD normalization (every step after normalization is independent of what
`nfkd` returns; on ASCII input the real normalization is the identity). -/
def safe_stem (nfkd : List Char → List Char) (filename : List Char) : List Char :=
  let safe := cleaned_stem nfkd filename
  let safe := if safe.length < 3 then "doc".toList else safe
  safe.take 100

/-- `_safe_stem` as a `String` function. -/
def safe_stem_str (nfkd : List Char → List Char) (s : String) : String :=
  (safe_stem nfkd s.toList).asString

/-- UTF-8 encoding of one character, as in `str.encode('utf-8')`. -/
def utf8Char (c : Char) : List Nat :=
  let n := c.toNat
  if n < 128 then [n]
  else if n < 2048 then [192 + n / 64, 128 + n % 64]
  else if n < 65536 then [224 + n / 4096, 128 + (n / 64) % 64, 128 + n % 64]
  else [240 + n / 262144, 128 + (n / 4096) % 64, 128 + (n / 64) % 64, 128 + n % 64]

/-- UTF-8 encoding of a string as a byte list. -/
def utf8Bytes (s : String) : List Nat :=
  (s.toList.map utf8Char).flatten

/-- `2 ^ 32`, the modulus of 32-bit words. -/
def w32mod : Nat := 4294967296

/-- 32-bit left rotation. -/
def rotl32 (x n : Nat) : Nat :=
  ((x <<< n) ||| (x >>> (32 - n))) % w32mod

/-- SHA-1 padding: append the `0x80` byte, zero bytes up to 56 mod 64, then
the eight-byte big-endian bit length. -/
def sha1Pad (msg : List Nat) : List Nat :=
  let ml := msg.length
  let zeros := (120 - ((ml + 1) % 64)) % 64
  let bits := ml * 8
  msg ++ [128] ++ List.replicate zeros 0 ++
    [(bits >>> 56) % 256, (bits >>> 48) % 256, (bits >>> 40) % 256, (bits >>> 32) % 256,
     (bits >>> 24) % 256, (bits >>> 16) % 256, (bits >>> 8) % 256, bits % 256]

/-- Big-endian grouping of bytes into 32-bit words. -/
def bytesToWords : List Nat → List Nat
  | a :: b :: c :: d :: rest => (((a * 256 + b) * 256 + c) * 256 + d) :: bytesToWords rest
  | _ => []

/-- SHA-1 message-schedule extension: append `k` further words. -/
def sha1Extend (ws : List Nat) : Nat → List Nat
  | 0 => ws
  | k + 1 =>
    let m := ws.length
    let w := rotl32 ((ws.getD (m - 3) 0) ^^^ (ws.getD (m - 8) 0) ^^^
      (ws.getD (m - 14) 0) ^^^ (ws.getD (m - 16) 0)) 1
    sha1Extend (ws ++ [w]) k

/-- The SHA-1 round function. -/
def sha1F (i b c d : Nat) : Nat :=
  if i < 20 then (b &&& c) ||| ((b ^^^ 4294967295) &&& d)
  else if i < 40 then b ^^^ c ^^^ d
  else if i < 60 then (b &&& c) ||| (b &&& d) ||| (c &&& d)
  else b ^^^ c ^^^ d

/-- The SHA-1 round constants. -/
def sha1K (i : Nat) : Nat :=
  if i < 20 then 1518500249
  else if i < 40 then 1859775393
  else if i < 60 then 2400959708
  else 3395469782

/-- The 80 SHA-1 rounds over the indexed message schedule. -/
def sha1Rounds : List (Nat × Nat) → Nat × Nat × Nat × Nat × Nat → Nat × Nat × Nat × Nat × Nat
  | [], st => st
  | (i, w) :: rest, (a, b, c, d, e) =>
    let temp := (rotl32 a 5 + sha1F i b c d + e + sha1K i + w) % w32mod
    sha1Rounds rest (temp, a, rotl32 b 30, c, d)

/-- One SHA-1 chunk step. -/
def sha1Chunk (h : Nat × Nat × Nat × Nat × Nat) (chunk : List Nat) :
    Nat × Nat × Nat × Nat × Nat :=
  let ws := sha1Extend (bytesToWords chunk) 64
  let (h0, h1, h2, h3, h4) := h
  let (a, b, c, d, e) := sha1Rounds ((List.range 80).zip ws) (h0, h1, h2, h3, h4)
  ((h0 + a) % w32mod, (h1 + b) % w32mod, (h2 + c) % w32mod,
    (h3 + d) % w32mod, (h4 + e) % w32mod)

/-- Split a byte list into chunks of 64 (fueled so that the recursion is
structural; the fuel `l.length` always suffices since each step drops at
least one element). -/
def chunks64Go : Nat → List Nat → List (List Nat)
  | _, [] => []
  | 0, _ => []
  | fuel + 1, x :: l => (x :: l.take 63) :: chunks64Go fuel (l.drop 63)

/-- Split a byte list into chunks of 64. -/
def chunks64 (l : List Nat) : List (List Nat) :=
  chunks64Go l.length l

/-- The first state word of the SHA-1 digest of a byte list. -/
def sha1H0 (msg : List Nat) : Nat :=
  (((chunks64 (sha1Pad msg)).foldl sha1Chunk
    (1732584193, 4023233417, 2562383102, 271733878, 3285377520))).1

/-- Lowercase hex digit, as produced by `hexdigest()`. -/
def hexDigit (n : Nat) : Char :=
  if n < 10 then Char.ofNat (48 + n) else Char.ofNat (87 + n % 16)

/-- The first 8 hex characters of
`hashlib.sha1(s.encode('utf-8')).hexdigest()`: the big-endian hex rendering
of the first digest word. -/
def sha1hex8 (s : String) : String :=
  let x := sha1H0 (utf8Bytes s)
  ([hexDigit ((x >>> 28) % 16), hexDigit ((x >>> 24) % 16), hexDigit ((x >>> 20) % 16),
    hexDigit ((x >>> 16) % 16), hexDigit ((x >>> 12) % 16), hexDigit ((x >>> 8) % 16),
    hexDigit ((x >>> 4) % 16), hexDigit (x % 16)]).asString

/-- Lines 180–189 of `rag.py` in `build_or_load_db_for_file`: the
collision-suffixed safe stem that keys the index subdirectory and the
collection name. A file whose stem is shared by another supported file gets
`-` plus the first 8 hex characters of the SHA-1 of its original filename
appended. -/
def resolved_safe_stem (nfkd : List Char → List Char) (docs : Docs) (file : String) : String :=
  let safe := safe_stem_str nfkd file
  let collisions := (supported_files docs).filter
    (fun f => safe_stem_str nfkd f == safe)
  if 1 < collisions.length then safe ++ "-" ++ sha1hex8 file else safe

/-- The manifest side-car file of one index directory: absent, present but
unparseable, or present with a parsed manifest. -/
inductive ManifestFile
  | missing
  | corrupt
  | good (m : List FileEntry)
deriving DecidableEq, Repr

/-- One index directory `DB_DIR/<stem>`: whether vector-store files are
present, and the state of the `manifest.json` side-car. -/
structure IndexDir where
  vecData : Bool
  manifest : ManifestFile
deriving DecidableEq, Repr

/-- A directory with neither vector data nor a manifest file, as produced by
`os.makedirs` or by `shutil.rmtree` followed by `os.makedirs`. -/
def emptyDir : IndexDir := ⟨false, .missing⟩

/-- `any(os.scandir(subdir))`: the directory holds at least one entry. -/
def IndexDir.nonEmpty (d : IndexDir) : Bool :=
  d.vecData || !(d.manifest == ManifestFile.missing)

/-- Reading the persisted manifest in `build_or_load_db_for_file`: a missing
or unparseable file yields the empty manifest. -/
def parseManifest : ManifestFile → List FileEntry
  | .good m => m
  | _ => []

/-- The whole system state: the documents directory and the index root
`DB_DIR` (a map from subdirectory name to its state; `none` means the
subdirectory does not exist). -/
structure SysState where
  docs : Docs
  db : String → Option IndexDir

/-- Point update of the index root. -/
def dbSet (db : String → Option IndexDir) (key : String) (d : IndexDir) :
    String → Option IndexDir :=
  fun t => if t = key then some d else db t

/-- The observable outcomes of the external collaborators during one build:
whether loading + chunking + embedding + persisting succeeds, whether a
failed build leaves partial vector-store files behind, and whether the final
manifest write (whose exception is swallowed by `try/except`) succeeds. -/
structure BuildEnv where
  buildOk : Bool
  partialOnFail : Bool
  writeOk : Bool

/-- The result of one `build_or_load_db_for_file` call: validation failure
(`ValueError`), fast-path load of the persisted index, full rebuild, or an
exception escaping from the loader / splitter / embedder / persist step. -/
inductive BuildResult
  | notFound
  | loaded
  | rebuilt
  | buildFailed
deriving DecidableEq, Repr

/-- The rebuild tail of `build_or_load_db_for_file` (lines 227–268): load,
split, embed and persist, then write the freshly computed manifest. On
success the directory holds the vector data and (if the side-car write
succeeded) the new manifest; on failure the exception propagates before any
manifest write, leaving at most partial vector files. -/
def rebuildStep (env : BuildEnv) (st : SysState) (key : String)
    (newM : List FileEntry) : BuildResult × SysState :=
  if env.buildOk then
    (.rebuilt,
      ⟨st.docs, dbSet st.db key ⟨true, if env.writeOk then .good newM else .missing⟩⟩)
  else
    (.buildFailed, ⟨st.docs, dbSet st.db key ⟨env.partialOnFail, .missing⟩⟩)

/-- The build-or-reuse core shared by the per-file variant (and, per the
spec, by the category variant): force-rebuild, else fast-path load when the
directory is non-empty and the persisted manifest matches the fresh one,
else delete and rebuild. `names` is the document set covered by the index;
`newM` is recomputed from the current directory state. -/
def ensureIndex (env : BuildEnv) (st : SysState) (key : String)
    (names : List String) (force : Bool) : BuildResult × SysState :=
  if force then rebuildStep env st key (compute_manifest st.docs names)
  else if ((st.db key).getD emptyDir).nonEmpty then
    if manifests_equal (parseManifest ((st.db key).getD emptyDir).manifest)
        (compute_manifest st.docs names) then (.loaded, st)
    else rebuildStep env st key (compute_manifest st.docs names)
  else rebuildStep env st key (compute_manifest st.docs names)

/-- `build_or_load_db_for_file`: validate the file against the current
supported list, resolve its collision-safe stem, then run the build-or-reuse
core on the single-file manifest. -/
def build_or_load_db_for_file (nfkd : List Char → List Char) (env : BuildEnv)
    (st : SysState) (file : String) (force : Bool) : BuildResult × SysState :=
  if file ∈ supported_files st.docs then
    ensureIndex env st (resolved_safe_stem nfkd st.docs file) [file] force
  else (.notFound, st)

/-- Modelled from the spec: `build_or_load_db_for_category` is called by
`server.py` but its definition is not under `src/` (only `src/rag.py`'s
per-file variant is). Per spec §4.3 the category variant "follows the
identical algorithm but aggregates all documents under a path prefix into
one shared IndexDirectory/Manifest". The documents of a category are the
supported files whose name starts with the category key followed by a
slash. -/
def category_files (docs : Docs) (cat : String) : List String :=
  (supported_files docs).filter (fun f => (cat ++ "/").toList.isPrefixOf f.toList)

/-- Modelled from the spec: the category variant of the build-or-reuse
algorithm, one shared index directory and manifest for all documents under
the category prefix. -/
def build_or_load_db_for_category (env : BuildEnv) (st : SysState)
    (cat : String) (force : Bool) : BuildResult × SysState :=
  if category_files st.docs cat = [] then (.notFound, st)
  else ensureIndex env st ("category_" ++ cat) (category_files st.docs cat) force

/-- The `pdf_only` filter at the top of `preindex_all`. -/
def pdfFilter (pdfOnly : Bool) (files : List String) : List String :=
  if pdfOnly then
    files.filter (fun f => ".pdf".toList.isSuffixOf (f.toList.map Char.toLower))
  else files

/-- The outcome of `preindex_all`'s selection phase: an early return with a
validation error message, an early return reporting an empty selection, or
the selected files to index. -/
inductive SelectOutcome
  | error (msg : String)
  | empty (msg : String)
  | run (sel : List String)
deriving DecidableEq, Repr

/-- `(total + batch_size - 1) // batch_size`. -/
def num_batches (total bs : Nat) : Nat := (total + bs - 1) / bs

/-- The selection logic of `preindex_all` (lines 372–413 of `rag.py`),
operating on the sorted supported-file list: the `pdf_only` filter, the
empty-list early return, then offset/limit mode (taking priority whenever
either parameter is given), else batch mode, else all files. -/
def preindex_select (files0 : List String) (pdfOnly : Bool)
    (offset limit batchSize batchIndex : Option Int) : SelectOutcome :=
  let files := pdfFilter pdfOnly files0
  let total := files.length
  if files.isEmpty then .empty "no matching files"
  else if offset.isSome || limit.isSome then
    let off : Nat := (max 0 (offset.getD 0)).toNat
    match limit with
    | none =>
      let sel := files.drop off
      if sel.isEmpty then .empty "offset/limit selection empty" else .run sel
    | some l =>
      if l < 0 then .error "limit must be non-negative"
      else
        let sel := (files.drop off).take l.toNat
        if sel.isEmpty then .empty "offset/limit selection empty" else .run sel
  else if batchSize.isSome || batchIndex.isSome then
    match batchSize, batchIndex with
    | some bs, some bi =>
      if bs ≤ 0 || bi ≤ 0 then .error "batch size and index must be positive"
      else if bi.toNat > num_batches total bs.toNat then .error "batch index out of range"
      else
        let sel := (files.drop ((bi.toNat - 1) * bs.toNat)).take bs.toNat
        if sel.isEmpty then .empty "batch selection empty" else .run sel
    | _, _ => .error "batch size and index must be given together"
  else .run files

/-- `preindex_all`: selection followed by the indexing loop, which calls
`build_or_load_db_for_file` per selected file, swallowing per-file failures
and continuing. On an early return nothing is indexed and the state is
untouched. -/
def preindex_all (nfkd : List Char → List Char) (env : BuildEnv) (st : SysState)
    (pdfOnly force : Bool) (offset limit batchSize batchIndex : Option Int) :
    SelectOutcome × SysState :=
  match preindex_select (supported_files st.docs) pdfOnly offset limit batchSize batchIndex with
  | .run sel =>
    (.run sel, sel.foldl (fun s f => (build_or_load_db_for_file nfkd env s f force).2) st)
  | r => (r, st)

/-- `category.replace("\\", "/")` in `server.py` (the pattern is a single
backslash, so the replace is a character map). -/
def replaceBackslashes (l : List Char) : List Char :=
  l.map (fun c => if c == Char.ofNat 92 then '/' else c)

/-- Python `str.strip("/")`: drop leading and trailing slashes. -/
def stripSlashes (l : List Char) : List Char :=
  ((l.dropWhile (fun c => c == '/')).reverse.dropWhile (fun c => c == '/')).reverse

/-- The `/files` route of `server.py` (`list_files`): the supported files,
filtered — when a non-empty category whose normalized form is non-empty is
given — to the names starting with the normalized category key followed by
a slash. -/
def list_files (docs : Docs) (category : Option String) : List String :=
  let files := supported_files docs
  match category with
  | none => files
  | some c =>
    if c.toList.isEmpty then files
    else
      let norm := stripSlashes (replaceBackslashes c.toList)
      if norm.isEmpty then files
      else files.filter (fun f => (norm ++ ['/']).isPrefixOf f.toList)

/-! ### Helper lemmas about sorting and manifests -/

theorem insertLe_perm {α : Type} (le : α → α → Bool) (x : α) (l : List α) :
    (insertLe le x l).Perm (x :: l) := by
  induction l with
  | nil => simp [insertLe]
  | cons y ys ih =>
    by_cases h : le x y
    · simp [insertLe, h]
    · simp only [insertLe, h, Bool.false_eq_true, if_false]
      exact (ih.cons y).trans (List.Perm.swap x y ys)

theorem sortLe_perm {α : Type} (le : α → α → Bool) (l : List α) :
    (sortLe le l).Perm l := by
  induction l with
  | nil => exact List.Perm.refl _
  | cons x xs ih => exact (insertLe_perm le x (sortLe le xs)).trans (ih.cons x)

theorem mem_supported_files {docs : Docs} {f : String} (h : f ∈ supported_files docs) :
    f ∈ (docs.map (fun e => e.name)).filter isSupportedName :=
  ((sortLe_perm _ _).mem_iff).mp h

theorem manifests_equal_iff (a b : List FileEntry) :
    manifests_equal a b = true ↔ sortByName a = sortByName b := by
  unfold manifests_equal
  simp only [Bool.and_eq_true, decide_eq_true_eq]
  constructor
  · rintro ⟨-, h⟩
    exact h
  · intro h
    refine ⟨?_, h⟩
    calc a.length = (sortByName a).length := ((sortLe_perm _ a).length_eq).symm
      _ = (sortByName b).length := by rw [h]
      _ = b.length := (sortLe_perm _ b).length_eq

theorem manifests_equal_refl (m : List FileEntry) : manifests_equal m m = true := by
  simp [manifests_equal]

theorem stat_opt_name {docs : Docs} {f : String} {e : FileEntry}
    (h : stat_opt docs f = some e) : e.name = f := by
  have := List.find?_some h
  simpa using this

theorem mem_compute_manifest {docs : Docs} {files : List String} {f : String}
    {e : FileEntry} (hf : f ∈ files) (h : stat_opt docs f = some e) :
    e ∈ compute_manifest docs files :=
  List.mem_filterMap.mpr ⟨f, hf, h⟩

theorem manifests_equal_change {docs docs' : Docs} {files : List String} {f : String}
    {e e' : FileEntry} (hf : f ∈ files) (h1 : stat_opt docs f = some e)
    (h2 : stat_opt docs' f = some e') (hne : e ≠ e') :
    manifests_equal (compute_manifest docs files) (compute_manifest docs' files) = false := by
  rw [Bool.eq_false_iff]
  intro h
  have hsort := (manifests_equal_iff _ _).mp h
  have pA := sortLe_perm (fun x y => strLe x.name y.name) (compute_manifest docs files)
  have pB := sortLe_perm (fun x y => strLe x.name y.name) (compute_manifest docs' files)
  have h3 : (sortByName (compute_manifest docs files)).Perm (compute_manifest docs' files) := by
    rw [hsort]
    exact pB
  have hperm := pA.symm.trans h3
  have hmem : e ∈ compute_manifest docs' files :=
    (hperm.mem_iff).mp (mem_compute_manifest hf h1)
  obtain ⟨g, hg, hgstat⟩ := List.mem_filterMap.mp hmem
  have hg1 : e.name = g := stat_opt_name hgstat
  have hg2 : e.name = f := stat_opt_name h1
  rw [hg2.symm.trans hg1] at h2
  rw [h2] at hgstat
  exact hne (Option.some.inj hgstat).symm

theorem stat_of_supported {docs : Docs} {f : String} (h : f ∈ supported_files docs) :
    ∃ e, stat_opt docs f = some e := by
  have h1 := mem_supported_files h
  have h2 : f ∈ docs.map (fun e => e.name) := List.mem_of_mem_filter h1
  obtain ⟨e, he, hname⟩ := List.mem_map.mp h2
  have h3 : (docs.find? (fun x => x.name == f)).isSome :=
    List.find?_isSome.mpr ⟨e, he, by simp [hname]⟩
  exact Option.isSome_iff_exists.mp h3

/-! ### Helper lemmas about the stem sanitizer -/

theorem mem_replaceInvalid {l : List Char} {c : Char} (h : c ∈ replaceInvalid l) :
    isStemChar c = true := by
  obtain ⟨a, _, heq⟩ := List.mem_map.mp h
  by_cases ha : isStemChar a
  · simp only [replaceInvalid, ha, if_pos] at heq
    rw [← heq]
    exact ha
  · simp only [replaceInvalid, ha, Bool.false_eq_true, if_false] at heq
    rw [← heq]
    decide

theorem mem_collapseUnderscores : ∀ {l : List Char} {c : Char},
    c ∈ collapseUnderscores l → c ∈ l
  | [], c, h => by simp [collapseUnderscores] at h
  | [a], c, h => by simpa [collapseUnderscores] using h
  | a :: b :: rest, c, h => by
    by_cases hab : a == '_' && b == '_'
    · simp only [collapseUnderscores, hab, if_pos] at h
      exact List.mem_cons_of_mem a (mem_collapseUnderscores h)
    · simp only [collapseUnderscores, hab, Bool.false_eq_true, if_false,
        List.mem_cons] at h
      rcases h with h | h
      · exact h ▸ List.mem_cons_self a _
      · exact List.mem_cons_of_mem a (mem_collapseUnderscores h)

theorem collapseUnderscores_head? : ∀ (l : List Char),
    (collapseUnderscores l).head? = l.head?
  | [] => rfl
  | [_] => rfl
  | a :: b :: rest => by
    by_cases hab : a == '_' && b == '_'
    · simp only [collapseUnderscores, hab, if_pos]
      rw [collapseUnderscores_head? (b :: rest)]
      have ha : a = '_' := by
        have := (Bool.and_eq_true _ _).mp hab
        simpa using this.1
      have hb : b = '_' := by
        have := (Bool.and_eq_true _ _).mp hab
        simpa using this.2
      simp [ha, hb]
    · simp [collapseUnderscores, hab]

theorem collapseUnderscores_ne_nil {l : List Char} (h : l ≠ []) :
    collapseUnderscores l ≠ [] := by
  intro hc
  have h1 := collapseUnderscores_head? l
  rw [hc] at h1
  cases l with
  | nil => exact h rfl
  | cons a t => simp at h1

theorem collapseUnderscores_getLast? : ∀ (l : List Char),
    (collapseUnderscores l).getLast? = l.getLast?
  | [] => rfl
  | [_] => rfl
  | a :: b :: rest => by
    by_cases hab : a == '_' && b == '_'
    · simp only [collapseUnderscores, hab, if_pos]
      rw [collapseUnderscores_getLast? (b :: rest), List.getLast?_cons_cons]
    · simp only [collapseUnderscores, hab, Bool.false_eq_true, if_false]
      obtain ⟨x, xs, hx⟩ : ∃ x xs, collapseUnderscores (b :: rest) = x :: xs := by
        cases hcb : collapseUnderscores (b :: rest) with
        | nil => exact absurd hcb (collapseUnderscores_ne_nil (by simp))
        | cons x xs => exact ⟨x, xs, rfl⟩
      rw [hx, List.getLast?_cons_cons, ← hx, collapseUnderscores_getLast? (b :: rest),
        List.getLast?_cons_cons]

theorem head?_dropWhile_not {p : Char → Bool} : ∀ {l : List Char} {c : Char},
    (l.dropWhile p).head? = some c → p c = false
  | [], c, h => by simp [List.dropWhile] at h
  | a :: t, c, h => by
    by_cases ha : p a
    · rw [List.dropWhile_cons_of_pos ha] at h
      exact head?_dropWhile_not h
    · rw [List.dropWhile_cons_of_neg ha] at h
      simp only [List.head?_cons, Option.some.injEq] at h
      rw [← h]
      exact Bool.eq_false_iff.mpr ha

theorem trimTrail_isPrefix (l : List Char) : trimTrail l <+: l := by
  unfold trimTrail
  have h := List.reverse_prefix.mpr (List.dropWhile_suffix
    (l := l.reverse) (fun c => !c.isAlphanum))
  rwa [List.reverse_reverse] at h

theorem head?_of_isPrefix {α : Type} {l₁ l₂ : List α} {c : α} (h : l₁ <+: l₂)
    (hc : l₁.head? = some c) : l₂.head? = some c := by
  obtain ⟨t, rfl⟩ := h
  rw [List.head?_append, hc]
  rfl

theorem getLast?_trimTrail_alnum {l : List Char} {c : Char}
    (h : (trimTrail l).getLast? = some c) : c.isAlphanum = true := by
  unfold trimTrail at h
  rw [List.getLast?_reverse] at h
  have := head?_dropWhile_not h
  simpa using this

theorem mem_trimLead {l : List Char} {c : Char} (h : c ∈ trimLead l) : c ∈ l :=
  (List.dropWhile_sublist _).mem h

theorem mem_trimTrail {l : List Char} {c : Char} (h : c ∈ trimTrail l) : c ∈ l := by
  unfold trimTrail at h
  rw [List.mem_reverse] at h
  have := (List.dropWhile_sublist (l := l.reverse) (fun c => !c.isAlphanum)).mem h
  rwa [List.mem_reverse] at this

theorem mem_cleaned_stem {nfkd : List Char → List Char} {filename : List Char} {c : Char}
    (h : c ∈ cleaned_stem nfkd filename) : isStemChar c = true :=
  mem_replaceInvalid (mem_trimLead (mem_trimTrail (mem_collapseUnderscores h)))

theorem head?_cleaned_stem_alnum {nfkd : List Char → List Char} {filename : List Char}
    {c : Char} (h : (cleaned_stem nfkd filename).head? = some c) :
    c.isAlphanum = true := by
  unfold cleaned_stem at h
  rw [collapseUnderscores_head?] at h
  have h2 := head?_of_isPrefix (trimTrail_isPrefix _) h
  have := head?_dropWhile_not h2
  simpa using this

theorem getLast?_cleaned_stem_alnum {nfkd : List Char → List Char} {filename : List Char}
    {c : Char} (h : (cleaned_stem nfkd filename).getLast? = some c) :
    c.isAlphanum = true := by
  unfold cleaned_stem at h
  rw [collapseUnderscores_getLast?] at h
  exact getLast?_trimTrail_alnum h

theorem alnum_not_special {c : Char} (h : c.isAlphanum = true) :
    c ≠ '.' ∧ c ≠ '_' ∧ c ≠ '-' :=
  ⟨by rintro rfl; exact absurd h (by decide),
   by rintro rfl; exact absurd h (by decide),
   by rintro rfl; exact absurd h (by decide)⟩

/-! ### Claim C2 -/

/-- C2: two manifests are equal exactly when their name-sorted entry
sequences are identical; a snapshot of an unchanged file-system state equals
its own recomputation; and the equality turns false as soon as any file of
the snapshot set changes size or modification time. -/
theorem c2_manifest_equality :
    (∀ a b, manifests_equal a b = true ↔ sortByName a = sortByName b) ∧
    (∀ (docs : Docs) (files : List String),
      manifests_equal (compute_manifest docs files) (compute_manifest docs files) = true) ∧
    (∀ (docs docs' : Docs) (files : List String) (f : String) (e e' : FileEntry),
      f ∈ files → stat_opt docs f = some e → stat_opt docs' f = some e' → e ≠ e' →
      manifests_equal (compute_manifest docs files) (compute_manifest docs' files) = false) :=
  ⟨manifests_equal_iff, fun _ _ => manifests_equal_refl _,
    fun _ _ _ _ _ _ hf h1 h2 hne => manifests_equal_change hf h1 h2 hne⟩

/-- Witness for C2 at a concrete changed file (size 5 → 6, mtime 10 → 11). -/
theorem c2_manifest_equality_witness :
    ("a.txt" ∈ ["a.txt"] ∧
      stat_opt [⟨"a.txt", 5, 10⟩] "a.txt" = some ⟨"a.txt", 5, 10⟩ ∧
      stat_opt [⟨"a.txt", 6, 11⟩] "a.txt" = some ⟨"a.txt", 6, 11⟩ ∧
      (⟨"a.txt", 5, 10⟩ : FileEntry) ≠ ⟨"a.txt", 6, 11⟩) ∧
    manifests_equal (compute_manifest [⟨"a.txt", 5, 10⟩] ["a.txt"])
      (compute_manifest [⟨"a.txt", 6, 11⟩] ["a.txt"]) = false :=
  ⟨⟨by decide, by decide, by decide, by decide⟩,
    c2_manifest_equality.2.2 [⟨"a.txt", 5, 10⟩] [⟨"a.txt", 6, 11⟩] ["a.txt"] "a.txt"
      ⟨"a.txt", 5, 10⟩ ⟨"a.txt", 6, 11⟩ (by decide) (by decide) (by decide) (by decide)⟩

/-! ### Claim C3 -/

/-- C3 (amended): for every filename and every normalization, the sanitizer
output consists of characters of the class `[A-Za-z0-9._-]`, has length
between 3 and 100, never starts with a dot, underscore or dash, never ends
with one when the cleaned result is at most 100 characters long (truncation
of a longer cleaned result can cut right after such a character), and is the
literal `doc` whenever the cleaned result is empty or shorter than 3. -/
theorem c3_safe_stem_sanitizer (nfkd : List Char → List Char) (filename : List Char) :
    (∀ c ∈ safe_stem nfkd filename, isStemChar c = true) ∧
    3 ≤ (safe_stem nfkd filename).length ∧
    (safe_stem nfkd filename).length ≤ 100 ∧
    (∀ c, (safe_stem nfkd filename).head? = some c → c ≠ '.' ∧ c ≠ '_' ∧ c ≠ '-') ∧
    ((cleaned_stem nfkd filename).length ≤ 100 →
      ∀ c, (safe_stem nfkd filename).getLast? = some c → c ≠ '.' ∧ c ≠ '_' ∧ c ≠ '-') ∧
    ((cleaned_stem nfkd filename).length < 3 → safe_stem nfkd filename = "doc".toList) := by
  by_cases hlen : (cleaned_stem nfkd filename).length < 3
  · have hdoc : safe_stem nfkd filename = "doc".toList := by
      simp [safe_stem, hlen]
    refine ⟨?_, ?_, ?_, ?_, ?_, fun _ => hdoc⟩
    · rw [hdoc]; decide
    · rw [hdoc]; decide
    · rw [hdoc]; decide
    · rw [hdoc]; decide
    · rw [hdoc]; intro _; decide
  · have hstem : safe_stem nfkd filename = (cleaned_stem nfkd filename).take 100 := by
      simp [safe_stem, hlen]
    have hge : 3 ≤ (cleaned_stem nfkd filename).length := Nat.le_of_not_lt hlen
    refine ⟨?_, ?_, ?_, ?_, ?_, fun h => absurd h hlen⟩
    · intro c hc
      rw [hstem] at hc
      exact mem_cleaned_stem ((List.take_sublist _ _).mem hc)
    · rw [hstem, List.length_take]
      exact le_min (by norm_num) hge
    · rw [hstem, List.length_take]
      exact min_le_left _ _
    · intro c hc
      rw [hstem, List.head?_take] at hc
      simp only [OfNat.ofNat_ne_zero, if_false] at hc
      exact alnum_not_special (head?_cleaned_stem_alnum hc)
    · intro h100 c hc
      rw [hstem, List.take_of_length_le h100] at hc
      exact alnum_not_special (getLast?_cleaned_stem_alnum hc)

/-- Witness for C3 at the identity normalization and `x.txt`, whose cleaned
stem `x` is shorter than 3, so the output is the fallback `doc`. -/
theorem c3_safe_stem_sanitizer_witness :
    (cleaned_stem id ("x.txt".toList)).length < 3 ∧
    safe_stem id ("x.txt".toList) = "doc".toList :=
  ⟨by decide, (c3_safe_stem_sanitizer id ("x.txt".toList)).2.2.2.2.2 (by decide)⟩

/-- Counterexample to C3 as stated: the 105-character filename
`aaa…a_b.txt` (99 `a`s) has the 101-character cleaned stem `aaa…a_b`,
and the final truncation to 100 characters makes the sanitizer output end
with an underscore. -/
theorem c3_safe_stem_counterexample :
    (safe_stem id (List.replicate 99 'a' ++ "_b.txt".toList)).getLast? = some '_' := by
  decide

/-! ### Claim C4 -/

theorem one_lt_length_of_two_mem {α : Type} {l : List α} {a b : α}
    (ha : a ∈ l) (hb : b ∈ l) (hne : a ≠ b) : 1 < l.length := by
  match l with
  | [] => exact absurd ha (List.not_mem_nil a)
  | [x] =>
    rw [List.mem_singleton] at ha hb
    exact absurd (ha.trans hb.symm) hne
  | x :: y :: t => simp [Nat.lt_add_of_pos_left]

theorem length_le_one_of_all_eq {α : Type} {l : List α} {a : α}
    (hn : l.Nodup) (h : ∀ x ∈ l, x = a) : l.length ≤ 1 := by
  match l with
  | [] => simp
  | [x] => simp
  | x :: y :: t =>
    have hx : x = a := h x (List.mem_cons_self x _)
    have hy : y = a := h y (List.mem_cons_of_mem x (List.mem_cons_self y t))
    rw [List.nodup_cons] at hn
    exact absurd (hx.trans hy.symm ▸ List.mem_cons_self y t) (hx.trans hy.symm ▸ hn.1)

theorem supported_files_nodup {docs : Docs}
    (h : (docs.map (fun e => e.name)).Nodup) : (supported_files docs).Nodup :=
  ((sortLe_perm _ _).nodup_iff).mpr (h.filter isSupportedName)

theorem string_append_right_inj {s t1 t2 : String} (h : s ++ t1 = s ++ t2) : t1 = t2 := by
  have hd : (s ++ t1).data = (s ++ t2).data := by rw [h]
  rw [String.data_append, String.data_append] at hd
  exact congrArg String.mk (List.append_cancel_left hd)

/-- C4 (amended): in any supported-file list whose names are distinct, every
file whose sanitized stem is shared with another distinct file gets the
identifier `stem ++ "-" ++ first 8 hex chars of SHA-1(original filename)`;
two colliding files receive distinct identifiers whenever their 8-character
hash fragments differ (identifiers are pure functions of the file list, so
they are deterministic across runs); and a file whose stem is unique keeps
its plain stem. -/
theorem c4_collision_resolution (nfkd : List Char → List Char) (docs : Docs)
    (hnodup : (docs.map (fun e => e.name)).Nodup) :
    (∀ f ∈ supported_files docs, ∀ g ∈ supported_files docs, f ≠ g →
      safe_stem_str nfkd f = safe_stem_str nfkd g →
      resolved_safe_stem nfkd docs f = safe_stem_str nfkd f ++ "-" ++ sha1hex8 f ∧
      resolved_safe_stem nfkd docs g = safe_stem_str nfkd g ++ "-" ++ sha1hex8 g ∧
      (sha1hex8 f ≠ sha1hex8 g →
        resolved_safe_stem nfkd docs f ≠ resolved_safe_stem nfkd docs g)) ∧
    (∀ h ∈ supported_files docs,
      (∀ h2 ∈ supported_files docs, safe_stem_str nfkd h2 = safe_stem_str nfkd h → h2 = h) →
      resolved_safe_stem nfkd docs h = safe_stem_str nfkd h) := by
  constructor
  · intro f hf g hg hne hstem
    have hfc : f ∈ (supported_files docs).filter
        (fun x => safe_stem_str nfkd x == safe_stem_str nfkd f) :=
      List.mem_filter.mpr ⟨hf, by simp⟩
    have hgcf : g ∈ (supported_files docs).filter
        (fun x => safe_stem_str nfkd x == safe_stem_str nfkd f) :=
      List.mem_filter.mpr ⟨hg, by simp [hstem]⟩
    have hfcg : f ∈ (supported_files docs).filter
        (fun x => safe_stem_str nfkd x == safe_stem_str nfkd g) :=
      List.mem_filter.mpr ⟨hf, by simp [hstem]⟩
    have hgc : g ∈ (supported_files docs).filter
        (fun x => safe_stem_str nfkd x == safe_stem_str nfkd g) :=
      List.mem_filter.mpr ⟨hg, by simp⟩
    have hlenf := one_lt_length_of_two_mem hfc hgcf hne
    have hleng := one_lt_length_of_two_mem hfcg hgc hne
    have hrf : resolved_safe_stem nfkd docs f = safe_stem_str nfkd f ++ "-" ++ sha1hex8 f := by
      simp only [resolved_safe_stem]
      rw [if_pos hlenf]
    have hrg : resolved_safe_stem nfkd docs g = safe_stem_str nfkd g ++ "-" ++ sha1hex8 g := by
      simp only [resolved_safe_stem]
      rw [if_pos hleng]
    refine ⟨hrf, hrg, fun hhash heq => hhash ?_⟩
    rw [hrf, hrg, ← hstem] at heq
    exact string_append_right_inj heq
  · intro h hh huniq
    have hall : ∀ x ∈ (supported_files docs).filter
        (fun x => safe_stem_str nfkd x == safe_stem_str nfkd h), x = h := by
      intro x hx
      have := List.mem_filter.mp hx
      exact huniq x this.1 (by simpa using this.2)
    have hnd := (supported_files_nodup hnodup).filter
      (fun x => safe_stem_str nfkd x == safe_stem_str nfkd h)
    have hlen := length_le_one_of_all_eq hnd hall
    simp only [resolved_safe_stem]
    rw [if_neg (by omega)]

/-- Witness for C4 at `abc.txt` / `abc.md`, which share the stem `abc` but
have different SHA-1 fragments, so their resolved identifiers differ. -/
theorem c4_collision_resolution_witness :
    (([⟨"abc.txt", 1, 1⟩, ⟨"abc.md", 2, 2⟩] : Docs).map (fun e => e.name)).Nodup ∧
    resolved_safe_stem id [⟨"abc.txt", 1, 1⟩, ⟨"abc.md", 2, 2⟩] "abc.txt" ≠
      resolved_safe_stem id [⟨"abc.txt", 1, 1⟩, ⟨"abc.md", 2, 2⟩] "abc.md" :=
  ⟨by decide,
    ((c4_collision_resolution id [⟨"abc.txt", 1, 1⟩, ⟨"abc.md", 2, 2⟩] (by decide)).1
      "abc.txt" (by decide) "abc.md" (by decide) (by decide) (by decide)).2.2 (by decide)⟩

/-- Counterexample to C4 as stated: the two distinct supported filenames
`a!@,,#b.txt` and `a!&=#!b.txt` sanitize to the same stem `a_b` and their
SHA-1 digests share the first 8 hex characters (`a88350e3`), so both
colliding files resolve to the identical identifier `a_b-a88350e3` —
the resolved identifiers are not pairwise distinct. -/
theorem c4_collision_counterexample :
    ("a!@,,#b.txt" : String) ≠ "a!&=#!b.txt" ∧
    "a!@,,#b.txt" ∈ supported_files [⟨"a!@,,#b.txt", 1, 1⟩, ⟨"a!&=#!b.txt", 1, 1⟩] ∧
    "a!&=#!b.txt" ∈ supported_files [⟨"a!@,,#b.txt", 1, 1⟩, ⟨"a!&=#!b.txt", 1, 1⟩] ∧
    safe_stem_str id "a!@,,#b.txt" = safe_stem_str id "a!&=#!b.txt" ∧
    resolved_safe_stem id [⟨"a!@,,#b.txt", 1, 1⟩, ⟨"a!&=#!b.txt", 1, 1⟩] "a!@,,#b.txt" =
      resolved_safe_stem id [⟨"a!@,,#b.txt", 1, 1⟩, ⟨"a!&=#!b.txt", 1, 1⟩] "a!&=#!b.txt" :=
  ⟨by decide, by decide, by decide, by decide, by decide⟩

/-! ### Helper lemmas about the build-or-reuse core -/

theorem rebuildStep_docs (env : BuildEnv) (st : SysState) (key : String)
    (m : List FileEntry) : ((rebuildStep env st key m).2).docs = st.docs := by
  unfold rebuildStep
  split <;> rfl

theorem ensureIndex_docs (env : BuildEnv) (st : SysState) (key : String)
    (names : List String) (force : Bool) :
    ((ensureIndex env st key names force).2).docs = st.docs := by
  unfold ensureIndex
  split
  · exact rebuildStep_docs env st key _
  · split
    · split
      · rfl
      · exact rebuildStep_docs env st key _
    · exact rebuildStep_docs env st key _

theorem ensureIndex_fast (env : BuildEnv) (st : SysState) (key : String)
    (names : List String) {d : IndexDir} (h1 : st.db key = some d)
    (h2 : d.nonEmpty = true)
    (h3 : manifests_equal (parseManifest d.manifest) (compute_manifest st.docs names) = true) :
    ensureIndex env st key names false = (.loaded, st) := by
  simp [ensureIndex, h1, h2, h3]

theorem ensureIndex_rebuild_of_stale (env : BuildEnv) (st : SysState) (key : String)
    (names : List String) {d : IndexDir} (hb : env.buildOk = true) (hw : env.writeOk = true)
    (h1 : st.db key = some d) (h2 : d.nonEmpty = true)
    (h3 : manifests_equal (parseManifest d.manifest) (compute_manifest st.docs names) = false) :
    ensureIndex env st key names false =
      (.rebuilt, ⟨st.docs, dbSet st.db key
        ⟨true, .good (compute_manifest st.docs names)⟩⟩) := by
  simp [ensureIndex, rebuildStep, h1, h2, h3, hb, hw]

theorem ensureIndex_force_rebuild (env : BuildEnv) (st : SysState) (key : String)
    (names : List String) (hb : env.buildOk = true) (hw : env.writeOk = true) :
    ensureIndex env st key names true =
      (.rebuilt, ⟨st.docs, dbSet st.db key
        ⟨true, .good (compute_manifest st.docs names)⟩⟩) := by
  simp [ensureIndex, rebuildStep, hb, hw]

theorem ensureIndex_missing (env : BuildEnv) (st : SysState) (key : String)
    (names : List String) (hb : env.buildOk = true) (hw : env.writeOk = true)
    (h1 : ((st.db key).getD emptyDir).nonEmpty = false) :
    ensureIndex env st key names false =
      (.rebuilt, ⟨st.docs, dbSet st.db key
        ⟨true, .good (compute_manifest st.docs names)⟩⟩) := by
  simp [ensureIndex, rebuildStep, h1, hb, hw]

theorem ensureIndex_cases (env : BuildEnv) (st : SysState) (key : String)
    (names : List String) (force : Bool) (hb : env.buildOk = true)
    (hw : env.writeOk = true) :
    (∃ d, st.db key = some d ∧ d.nonEmpty = true ∧
      manifests_equal (parseManifest d.manifest) (compute_manifest st.docs names) = true ∧
      ensureIndex env st key names force = (.loaded, st)) ∨
    ensureIndex env st key names force =
      (.rebuilt, ⟨st.docs, dbSet st.db key
        ⟨true, .good (compute_manifest st.docs names)⟩⟩) := by
  cases hforce : force
  · cases hne : ((st.db key).getD emptyDir).nonEmpty
    · right
      exact ensureIndex_missing env st key names hb hw hne
    · obtain ⟨d, hmem⟩ : ∃ d, st.db key = some d := by
        cases hmem : st.db key with
        | none =>
          rw [hmem] at hne
          exact absurd hne (by decide)
        | some d => exact ⟨d, rfl⟩
      rw [hmem, Option.getD_some] at hne
      cases heq : manifests_equal (parseManifest d.manifest) (compute_manifest st.docs names)
      · right
        exact ensureIndex_rebuild_of_stale env st key names hb hw hmem hne heq
      · left
        exact ⟨d, hmem, hne, heq, ensureIndex_fast env st key names hmem hne heq⟩
  · right
    exact ensureIndex_force_rebuild env st key names hb hw

theorem ensureIndex_second_load (env env2 : BuildEnv) (st : SysState) (key : String)
    (names : List String) (force : Bool) (hb : env.buildOk = true)
    (hw : env.writeOk = true) :
    ensureIndex env2 (ensureIndex env st key names force).2 key names false =
      (.loaded, (ensureIndex env st key names force).2) := by
  rcases ensureIndex_cases env st key names force hb hw with ⟨d, hmem, hne, heq, hres⟩ | hres
  · rw [hres]
    exact ensureIndex_fast env2 st key names hmem hne heq
  · rw [hres]
    refine ensureIndex_fast env2 _ key names
      (d := ⟨true, .good (compute_manifest st.docs names)⟩) ?_ ?_ ?_
    · simp [dbSet]
    · simp [IndexDir.nonEmpty]
    · simpa [parseManifest] using manifests_equal_refl (compute_manifest st.docs names)

theorem ensureIndex_fst_rebuilt_of_not_fast (env : BuildEnv) (st : SysState) (key : String)
    (names : List String) (force : Bool) (hb : env.buildOk = true)
    (h : force = true ∨ ((st.db key).getD emptyDir).nonEmpty = false ∨
      manifests_equal (parseManifest ((st.db key).getD emptyDir).manifest)
        (compute_manifest st.docs names) = false) :
    (ensureIndex env st key names force).1 = .rebuilt := by
  rcases h with hf | hne | heq
  · rw [hf]
    simp [ensureIndex, rebuildStep, hb]
  · cases force <;> simp [ensureIndex, rebuildStep, hne, hb]
  · cases force <;> cases hne2 : ((st.db key).getD emptyDir).nonEmpty <;>
      simp [ensureIndex, rebuildStep, hne2, heq, hb]

theorem ensureIndex_failed (env : BuildEnv) (st : SysState) (key : String)
    (names : List String) (force : Bool) (hb : env.buildOk = false)
    (hres : (ensureIndex env st key names force).1 = .buildFailed) :
    ensureIndex env st key names force =
      (.buildFailed, ⟨st.docs, dbSet st.db key ⟨env.partialOnFail, .missing⟩⟩) := by
  cases hforce : force
  · cases hne : ((st.db key).getD emptyDir).nonEmpty
    · simp [ensureIndex, rebuildStep, hne, hb]
    · cases heq : manifests_equal (parseManifest ((st.db key).getD emptyDir).manifest)
          (compute_manifest st.docs names)
      · simp [ensureIndex, rebuildStep, hne, heq, hb]
      · rw [hforce] at hres
        simp [ensureIndex, hne, heq] at hres
  · simp [ensureIndex, rebuildStep, hb]

theorem build_file_eq_ensure (nfkd : List Char → List Char) (env : BuildEnv)
    (st : SysState) (file : String) (force : Bool)
    (h : file ∈ supported_files st.docs) :
    build_or_load_db_for_file nfkd env st file force =
      ensureIndex env st (resolved_safe_stem nfkd st.docs file) [file] force := by
  simp [build_or_load_db_for_file, h]

theorem ensure_rebuild_after_fail (env2 : BuildEnv) (st : SysState) (key file : String)
    (p : Bool) (hfile : file ∈ supported_files st.docs) (hb2 : env2.buildOk = true) :
    (ensureIndex env2 (⟨st.docs, dbSet st.db key ⟨p, .missing⟩⟩ : SysState)
      key [file] false).1 = .rebuilt := by
  obtain ⟨e, hstat⟩ := stat_of_supported hfile
  apply ensureIndex_fst_rebuilt_of_not_fast _ _ _ _ _ hb2
  cases p
  · right; left
    simp [dbSet]
    decide
  · right; right
    simp [dbSet, parseManifest, compute_manifest, hstat, manifests_equal]

/-! ### Claim C1 -/

/-- C1: with a successful build environment and a supported file — fast
path: a non-empty index directory whose persisted manifest (missing or
unreadable read as empty, via `parseManifest`) equals the fresh manifest is
returned as a pure load, leaving the state untouched; stale path: on a
manifest mismatch the directory is deleted and fully rebuilt; a missing
directory is rebuilt; and a second call on the unchanged document is always
a pure load, so two consecutive calls perform exactly one rebuild when the
index was missing or stale. -/
theorem c1_fast_path_and_rebuild_once (nfkd : List Char → List Char) (env : BuildEnv)
    (st : SysState) (file : String) (hfile : file ∈ supported_files st.docs)
    (hb : env.buildOk = true) (hw : env.writeOk = true) :
    (∀ d, st.db (resolved_safe_stem nfkd st.docs file) = some d → d.nonEmpty = true →
      manifests_equal (parseManifest d.manifest) (compute_manifest st.docs [file]) = true →
      build_or_load_db_for_file nfkd env st file false = (.loaded, st)) ∧
    (∀ d, st.db (resolved_safe_stem nfkd st.docs file) = some d → d.nonEmpty = true →
      manifests_equal (parseManifest d.manifest) (compute_manifest st.docs [file]) = false →
      build_or_load_db_for_file nfkd env st file false =
        (.rebuilt, ⟨st.docs, dbSet st.db (resolved_safe_stem nfkd st.docs file)
          ⟨true, .good (compute_manifest st.docs [file])⟩⟩)) ∧
    (st.db (resolved_safe_stem nfkd st.docs file) = none →
      (build_or_load_db_for_file nfkd env st file false).1 = .rebuilt) ∧
    ((build_or_load_db_for_file nfkd env
      (build_or_load_db_for_file nfkd env st file false).2 file false).1 = .loaded) := by
  refine ⟨?_, ?_, ?_, ?_⟩
  · intro d h1 h2 h3
    rw [build_file_eq_ensure nfkd env st file false hfile]
    exact ensureIndex_fast env st _ [file] h1 h2 h3
  · intro d h1 h2 h3
    rw [build_file_eq_ensure nfkd env st file false hfile]
    exact ensureIndex_rebuild_of_stale env st _ [file] hb hw h1 h2 h3
  · intro h1
    rw [build_file_eq_ensure nfkd env st file false hfile]
    have h2 : ((st.db (resolved_safe_stem nfkd st.docs file)).getD emptyDir).nonEmpty
        = false := by
      rw [h1]
      decide
    rw [ensureIndex_missing env st _ [file] hb hw h2]
  · have hdocs : ((build_or_load_db_for_file nfkd env st file false).2).docs = st.docs := by
      rw [build_file_eq_ensure nfkd env st file false hfile]
      exact ensureIndex_docs env st _ [file] false
    have hfile1 :
        file ∈ supported_files ((build_or_load_db_for_file nfkd env st file false).2).docs := by
      rw [hdocs]
      exact hfile
    rw [build_file_eq_ensure nfkd env _ file false hfile1]
    have hkey : resolved_safe_stem nfkd
        ((build_or_load_db_for_file nfkd env st file false).2).docs file =
        resolved_safe_stem nfkd st.docs file := by
      rw [hdocs]
    rw [hkey, build_file_eq_ensure nfkd env st file false hfile,
      ensureIndex_second_load env env st (resolved_safe_stem nfkd st.docs file) [file]
        false hb hw]

/-- Witness for C1: one document, no index yet — the first call rebuilds,
the second call is a pure load. -/
theorem c1_fast_path_and_rebuild_once_witness :
    "a.txt" ∈ supported_files [⟨"a.txt", 5, 10⟩] ∧
    (build_or_load_db_for_file id ⟨true, false, true⟩
      (⟨[⟨"a.txt", 5, 10⟩], fun _ => none⟩ : SysState) "a.txt" false).1 = .rebuilt ∧
    (build_or_load_db_for_file id ⟨true, false, true⟩
      (build_or_load_db_for_file id ⟨true, false, true⟩
        (⟨[⟨"a.txt", 5, 10⟩], fun _ => none⟩ : SysState) "a.txt" false).2
      "a.txt" false).1 = .loaded :=
  ⟨by decide,
    (c1_fast_path_and_rebuild_once id ⟨true, false, true⟩
      ⟨[⟨"a.txt", 5, 10⟩], fun _ => none⟩ "a.txt" (by decide) rfl rfl).2.2.1 rfl,
    (c1_fast_path_and_rebuild_once id ⟨true, false, true⟩
      ⟨[⟨"a.txt", 5, 10⟩], fun _ => none⟩ "a.txt" (by decide) rfl rfl).2.2.2⟩

/-! ### Claim C7 -/

/-- C7: if loading, chunking, embedding or persisting fails during a
rebuild (the call reports `buildFailed`), the directory is left without a
manifest side-car — whether or not partial vector files were written — so
the next call with a working environment performs a clean rebuild instead
of loading the partial state. -/
theorem c7_failed_build_leaves_no_manifest (nfkd : List Char → List Char) (env : BuildEnv)
    (st : SysState) (file : String) (force : Bool)
    (hfile : file ∈ supported_files st.docs) (hb : env.buildOk = false)
    (hres : (build_or_load_db_for_file nfkd env st file force).1 = .buildFailed) :
    ((build_or_load_db_for_file nfkd env st file force).2).db
        (resolved_safe_stem nfkd st.docs file) = some ⟨env.partialOnFail, .missing⟩ ∧
    (∀ env2 : BuildEnv, env2.buildOk = true →
      (build_or_load_db_for_file nfkd env2
        (build_or_load_db_for_file nfkd env st file force).2 file false).1 = .rebuilt) := by
  rw [build_file_eq_ensure nfkd env st file force hfile] at hres
  have hstate := ensureIndex_failed env st _ [file] force hb hres
  constructor
  · rw [build_file_eq_ensure nfkd env st file force hfile, hstate]
    simp [dbSet]
  · intro env2 hb2
    rw [build_file_eq_ensure nfkd env st file force hfile, hstate]
    show (build_or_load_db_for_file nfkd env2
      (⟨st.docs, dbSet st.db (resolved_safe_stem nfkd st.docs file)
        ⟨env.partialOnFail, .missing⟩⟩ : SysState) file false).1 = .rebuilt
    rw [build_file_eq_ensure nfkd env2
      ⟨st.docs, dbSet st.db (resolved_safe_stem nfkd st.docs file)
        ⟨env.partialOnFail, .missing⟩⟩ file false hfile]
    exact ensure_rebuild_after_fail env2 st _ file env.partialOnFail hfile hb2

/-- Witness for C7: the failed first build leaves no manifest, and the
retry with a working environment rebuilds. -/
theorem c7_failed_build_leaves_no_manifest_witness :
    (build_or_load_db_for_file id ⟨true, true, true⟩
      (build_or_load_db_for_file id ⟨false, true, true⟩
        (⟨[⟨"a.txt", 5, 10⟩], fun _ => none⟩ : SysState) "a.txt" false).2
      "a.txt" false).1 = .rebuilt :=
  (c7_failed_build_leaves_no_manifest id ⟨false, true, true⟩
    ⟨[⟨"a.txt", 5, 10⟩], fun _ => none⟩ "a.txt" false (by decide) rfl (by decide)).2
    ⟨true, true, true⟩ rfl

/-! ### Claim C8 -/

/-- C8: a forced call always deletes the index directory (whether or not it
existed) and fully rebuilds it, repopulating it with the vector data and the
fresh manifest, regardless of any manifest equality. -/
theorem c8_force_always_rebuilds (nfkd : List Char → List Char) (env : BuildEnv)
    (st : SysState) (file : String) (hfile : file ∈ supported_files st.docs)
    (hb : env.buildOk = true) (hw : env.writeOk = true) :
    build_or_load_db_for_file nfkd env st file true =
      (.rebuilt, ⟨st.docs, dbSet st.db (resolved_safe_stem nfkd st.docs file)
        ⟨true, .good (compute_manifest st.docs [file])⟩⟩) := by
  rw [build_file_eq_ensure nfkd env st file true hfile]
  exact ensureIndex_force_rebuild env st _ [file] hb hw

/-- Witness for C8: forcing on a state whose index is present and whose
persisted manifest already equals the fresh one still rebuilds. -/
theorem c8_force_always_rebuilds_witness :
    (build_or_load_db_for_file id ⟨true, false, true⟩
      (⟨[⟨"a.txt", 5, 10⟩],
        fun _ => some ⟨true, .good [⟨"a.txt", 5, 10⟩]⟩⟩ : SysState) "a.txt" true).1
      = .rebuilt := by
  rw [c8_force_always_rebuilds id ⟨true, false, true⟩
    ⟨[⟨"a.txt", 5, 10⟩], fun _ => some ⟨true, .good [⟨"a.txt", 5, 10⟩]⟩⟩ "a.txt"
    (by decide) rfl rfl]

/-! ### Claim C9 -/

theorem build_cat_eq_ensure (env : BuildEnv) (st : SysState) (cat : String) (force : Bool)
    (h : category_files st.docs cat ≠ []) :
    build_or_load_db_for_category env st cat force =
      ensureIndex env st ("category_" ++ cat) (category_files st.docs cat) force := by
  simp [build_or_load_db_for_category, h]

/-- C9 (spec-modelled): the category variant runs the identical
build-or-reuse algorithm on one shared directory keyed by the category,
with one shared manifest aggregating every supported document under the
category's path prefix: same fast path, a missing directory is rebuilt and
persisted with the aggregated manifest, and an immediate second call is a
pure load of that index. -/
theorem c9_category_same_algorithm (env : BuildEnv) (st : SysState) (cat : String)
    (hne : category_files st.docs cat ≠ []) (hb : env.buildOk = true)
    (hw : env.writeOk = true) :
    (∀ d, st.db ("category_" ++ cat) = some d → d.nonEmpty = true →
      manifests_equal (parseManifest d.manifest)
        (compute_manifest st.docs (category_files st.docs cat)) = true →
      build_or_load_db_for_category env st cat false = (.loaded, st)) ∧
    (((st.db ("category_" ++ cat)).getD emptyDir).nonEmpty = false →
      build_or_load_db_for_category env st cat false =
        (.rebuilt, ⟨st.docs, dbSet st.db ("category_" ++ cat)
          ⟨true, .good (compute_manifest st.docs (category_files st.docs cat))⟩⟩)) ∧
    ((build_or_load_db_for_category env
      (build_or_load_db_for_category env st cat false).2 cat false).1 = .loaded) := by
  refine ⟨?_, ?_, ?_⟩
  · intro d h1 h2 h3
    rw [build_cat_eq_ensure env st cat false hne]
    exact ensureIndex_fast env st _ _ h1 h2 h3
  · intro h1
    rw [build_cat_eq_ensure env st cat false hne]
    exact ensureIndex_missing env st _ _ hb hw h1
  · have hdocs : ((build_or_load_db_for_category env st cat false).2).docs = st.docs := by
      rw [build_cat_eq_ensure env st cat false hne]
      exact ensureIndex_docs env st _ _ false
    have hne1 : category_files ((build_or_load_db_for_category env st cat false).2).docs
        cat ≠ [] := by
      rw [hdocs]
      exact hne
    rw [build_cat_eq_ensure env _ cat false hne1]
    have hcat : category_files ((build_or_load_db_for_category env st cat false).2).docs cat
        = category_files st.docs cat := by
      rw [hdocs]
    rw [hcat, build_cat_eq_ensure env st cat false hne,
      ensureIndex_second_load env env st ("category_" ++ cat)
        (category_files st.docs cat) false hb hw]

/-- Witness for C9: a two-document category, no index yet — the first call
rebuilds the shared index and the second call loads it. -/
theorem c9_category_same_algorithm_witness :
    category_files [⟨"man/a.txt", 5, 10⟩, ⟨"man/b.txt", 2, 3⟩] "man" ≠ [] ∧
    (build_or_load_db_for_category ⟨true, false, true⟩
      (build_or_load_db_for_category ⟨true, false, true⟩
        (⟨[⟨"man/a.txt", 5, 10⟩, ⟨"man/b.txt", 2, 3⟩], fun _ => none⟩ : SysState)
        "man" false).2 "man" false).1 = .loaded :=
  ⟨by decide,
    (c9_category_same_algorithm ⟨true, false, true⟩
      ⟨[⟨"man/a.txt", 5, 10⟩, ⟨"man/b.txt", 2, 3⟩], fun _ => none⟩ "man"
      (by decide) rfl rfl).2.2⟩

/-! ### Claim C5 -/

theorem num_batches_zero (B : Nat) (hB : 0 < B) : num_batches 0 B = 0 := by
  unfold num_batches
  exact Nat.div_eq_of_lt (by omega)

theorem num_batches_succ (n B : Nat) (hB : 0 < B) (hn : 0 < n) :
    num_batches n B = (n - 1) / B + 1 := by
  unfold num_batches
  have h1 : n + B - 1 = (n - 1) + B := by omega
  rw [h1, Nat.add_div_right _ hB]

theorem num_batches_drop (n B : Nat) (hB : 0 < B) (hn : 0 < n) :
    num_batches (n - B) B = (n - 1) / B := by
  by_cases h : n ≤ B
  · have h1 : n - B = 0 := by omega
    rw [h1, num_batches_zero B hB]
    exact (Nat.div_eq_of_lt (by omega)).symm
  · have h0 : 0 < n - B := by omega
    rw [num_batches_succ _ B hB h0]
    have h1 : n - B - 1 = n - 1 - B := by omega
    have h2 : n - 1 - B + B = n - 1 := by omega
    rw [h1]
    have h3 := Nat.add_div_right (n - 1 - B) hB
    rw [h2] at h3
    exact h3.symm

/-- The batch slices of size `B` starting at `0, B, 2B, …` concatenate back
to the whole list. -/
theorem flatten_batches {α : Type} (B : Nat) (hB : 0 < B) : ∀ (l : List α),
    ((List.range (num_batches l.length B)).map
      (fun j => (l.drop (j * B)).take B)).flatten = l
  | [] => by
    rw [List.length_nil, num_batches_zero B hB]
    rfl
  | x :: xs => by
    have hn : 0 < (x :: xs).length := by simp
    rw [num_batches_succ _ B hB hn, List.range_succ_eq_map, List.map_cons,
      List.map_map, List.flatten_cons]
    have hhead : ((x :: xs).drop (0 * B)).take B = (x :: xs).take B := by
      simp
    rw [hhead]
    have hfun : ((fun j => ((x :: xs).drop (j * B)).take B) ∘ Nat.succ)
        = (fun j => (((x :: xs).drop B).drop (j * B)).take B) := by
      funext j
      show (((x :: xs).drop (Nat.succ j * B)).take B) = _
      rw [List.drop_drop, Nat.succ_mul, Nat.add_comm (j * B) B]
    rw [hfun]
    have hnb : (((x :: xs).length - 1) / B)
        = num_batches (((x :: xs).drop B).length) B := by
      rw [List.length_drop]
      exact (num_batches_drop _ B hB hn).symm
    rw [hnb, flatten_batches B hB ((x :: xs).drop B)]
    exact List.take_append_drop B (x :: xs)
termination_by l => l.length
decreasing_by simp [List.length_drop]; omega

/-- C5: with neither offset nor limit given, batch `i` of `ceil(total/B)`
(1-based) selects exactly the contiguous slice starting at `(i-1)*B` of
length at most `B`, and the concatenation of all batches reconstructs the
ordered file list with no overlap and no gap. -/
theorem c5_batch_partition (files : List String) (B i : Nat) (hB : 0 < B)
    (hi1 : 1 ≤ i) (hi2 : i ≤ num_batches files.length B) (hne : files ≠ []) :
    preindex_select files false none none (some (B : Int)) (some (i : Int)) =
      .run ((files.drop ((i - 1) * B)).take B) ∧
    ((List.range (num_batches files.length B)).map
      (fun j => (files.drop (j * B)).take B)).flatten = files := by
  refine ⟨?_, flatten_batches B hB files⟩
  have hfe : files.isEmpty = false := by
    cases files
    · exact absurd rfl hne
    · rfl
  have hb0 : ¬((B : Int) ≤ 0) := by omega
  have hi0 : ¬((i : Int) ≤ 0) := by omega
  have htoB : (B : Int).toNat = B := Int.toNat_natCast B
  have htoI : (i : Int).toNat = i := Int.toNat_natCast i
  have hrange : ¬(i > num_batches files.length B) := by omega
  have hstart : (i - 1) * B < files.length := by
    have h1 : 0 < files.length := List.length_pos.mpr hne
    have h2 : num_batches files.length B = (files.length - 1) / B + 1 :=
      num_batches_succ _ B hB h1
    have h3 : i - 1 ≤ (files.length - 1) / B := by omega
    calc (i - 1) * B ≤ ((files.length - 1) / B) * B := Nat.mul_le_mul_right B h3
      _ ≤ files.length - 1 := Nat.div_mul_le_self _ B
      _ < files.length := by omega
  have hselne : ((files.drop ((i - 1) * B)).take B).isEmpty = false := by
    have h2 : ((files.drop ((i - 1) * B)).take B).length
        = min B (files.length - (i - 1) * B) := by
      rw [List.length_take, List.length_drop]
    have h3 : 0 < min B (files.length - (i - 1) * B) :=
      lt_min_iff.mpr ⟨hB, by omega⟩
    cases hsel : (files.drop ((i - 1) * B)).take B with
    | nil =>
      rw [hsel] at h2
      rw [← h2] at h3
      simp at h3
    | cons a t => rfl
  simp [preindex_select, pdfFilter, hfe, hb0, hi0, htoB, htoI, hrange, hselne]

/-- Witness for C5: two files, batch size 1, second batch. -/
theorem c5_batch_partition_witness :
    (0 < 1 ∧ 1 ≤ 2 ∧ 2 ≤ num_batches 2 1 ∧ (["a.txt", "b.pdf"] : List String) ≠ []) ∧
    preindex_select ["a.txt", "b.pdf"] false none none
      (some ((1 : Nat) : Int)) (some ((2 : Nat) : Int)) = .run ["b.pdf"] := by
  refine ⟨⟨by decide, by decide, by decide, by decide⟩, ?_⟩
  rw [(c5_batch_partition ["a.txt", "b.pdf"] 1 2 (by decide) (by decide) (by decide)
    (by decide)).1]
  rfl

/-! ### Claim C6 -/

/-- C6: `preindex_all` rejects a negative limit, a lone batch parameter,
non-positive batch numbers, and an out-of-range batch index — in every case
before indexing anything (the state is returned untouched); an offset at or
past the end yields an empty-selection report, not an error; and
offset/limit mode takes priority over batch mode whenever either offset or
limit is provided. -/
theorem c6_preindex_validation (nfkd : List Char → List Char) (env : BuildEnv)
    (st : SysState) (force : Bool) (hne : supported_files st.docs ≠ []) :
    (∀ (off : Option Int) (l : Int) (bs bi : Option Int), l < 0 →
      preindex_all nfkd env st false force off (some l) bs bi =
        (.error "limit must be non-negative", st)) ∧
    (∀ b : Int, preindex_all nfkd env st false force none none (some b) none =
      (.error "batch size and index must be given together", st)) ∧
    (∀ i : Int, preindex_all nfkd env st false force none none none (some i) =
      (.error "batch size and index must be given together", st)) ∧
    (∀ b i : Int, b ≤ 0 ∨ i ≤ 0 →
      preindex_all nfkd env st false force none none (some b) (some i) =
        (.error "batch size and index must be positive", st)) ∧
    (∀ b i : Int, 0 < b → 0 < i →
      i.toNat > num_batches (supported_files st.docs).length b.toNat →
      preindex_all nfkd env st false force none none (some b) (some i) =
        (.error "batch index out of range", st)) ∧
    (∀ o : Int, ((supported_files st.docs).length : Int) ≤ o →
      preindex_all nfkd env st false force (some o) none none none =
        (.empty "offset/limit selection empty", st)) ∧
    (∀ o l : Int, ((supported_files st.docs).length : Int) ≤ o → 0 ≤ l →
      preindex_all nfkd env st false force (some o) (some l) none none =
        (.empty "offset/limit selection empty", st)) ∧
    (∀ off lim bs bi : Option Int, off.isSome = true ∨ lim.isSome = true →
      preindex_all nfkd env st false force off lim bs bi =
        preindex_all nfkd env st false force off lim none none) := by
  have hfe : (supported_files st.docs).isEmpty = false := by
    cases h : supported_files st.docs
    · exact absurd h hne
    · rfl
  refine ⟨?_, ?_, ?_, ?_, ?_, ?_, ?_, ?_⟩
  · intro off l bs bi hl
    have hsel : preindex_select (supported_files st.docs) false off (some l) bs bi =
        .error "limit must be non-negative" := by
      simp [preindex_select, pdfFilter, hfe, hl]
    simp only [preindex_all]
    rw [hsel]
  · intro b
    have hsel : preindex_select (supported_files st.docs) false none none (some b) none =
        .error "batch size and index must be given together" := by
      simp [preindex_select, pdfFilter, hfe]
    simp only [preindex_all]
    rw [hsel]
  · intro i
    have hsel : preindex_select (supported_files st.docs) false none none none (some i) =
        .error "batch size and index must be given together" := by
      simp [preindex_select, pdfFilter, hfe]
    simp only [preindex_all]
    rw [hsel]
  · intro b i h
    have hsel : preindex_select (supported_files st.docs) false none none
        (some b) (some i) = .error "batch size and index must be positive" := by
      rcases h with h | h <;> simp [preindex_select, pdfFilter, hfe, h]
    simp only [preindex_all]
    rw [hsel]
  · intro b i hb hi hr
    have hb' : ¬(b ≤ 0) := by omega
    have hi' : ¬(i ≤ 0) := by omega
    have hsel : preindex_select (supported_files st.docs) false none none
        (some b) (some i) = .error "batch index out of range" := by
      simp [preindex_select, pdfFilter, hfe, hb', hi', hr]
    simp only [preindex_all]
    rw [hsel]
  · intro o ho
    have h0 : (0 : Int) ≤ o := le_trans (Int.natCast_nonneg _) ho
    have hmax : max 0 o = o := max_eq_right h0
    have hemp : (((supported_files st.docs).drop o.toNat)).isEmpty = true := by
      rw [List.drop_eq_nil_of_le (by omega)]
      rfl
    have hsel : preindex_select (supported_files st.docs) false (some o) none
        none none = .empty "offset/limit selection empty" := by
      simp [preindex_select, pdfFilter, hfe, hmax, hemp]
    simp only [preindex_all]
    rw [hsel]
  · intro o l ho hl
    have h0 : (0 : Int) ≤ o := le_trans (Int.natCast_nonneg _) ho
    have hmax : max 0 o = o := max_eq_right h0
    have hl' : ¬(l < 0) := by omega
    have hemp : ((((supported_files st.docs).drop o.toNat)).take l.toNat).isEmpty
        = true := by
      rw [List.drop_eq_nil_of_le (by omega)]
      simp
    have hsel : preindex_select (supported_files st.docs) false (some o) (some l)
        none none = .empty "offset/limit selection empty" := by
      simp [preindex_select, pdfFilter, hfe, hmax, hl', hemp]
    simp only [preindex_all]
    rw [hsel]
  · intro off lim bs bi h
    have hsel : preindex_select (supported_files st.docs) false off lim bs bi =
        preindex_select (supported_files st.docs) false off lim none none := by
      rcases h with h | h <;> simp [preindex_select, pdfFilter, h]
    simp only [preindex_all]
    rw [hsel]

/-- Witness for C6: a negative limit is rejected with the state untouched. -/
theorem c6_preindex_validation_witness :
    supported_files [⟨"a.txt", 5, 10⟩] ≠ [] ∧
    preindex_all id ⟨true, false, true⟩
      (⟨[⟨"a.txt", 5, 10⟩], fun _ => none⟩ : SysState) false false
      none (some (-1)) none none =
      (.error "limit must be non-negative",
        (⟨[⟨"a.txt", 5, 10⟩], fun _ => none⟩ : SysState)) :=
  ⟨by decide,
    (c6_preindex_validation id ⟨true, false, true⟩
      ⟨[⟨"a.txt", 5, 10⟩], fun _ => none⟩ false (by decide)).1
      none (-1) none none (by decide)⟩

/-! ### Claim C10 -/

/-- C10 (amended): since `os.listdir` is non-recursive, directory entry
names contain no path separator, so neither does any name returned by
`_supported_files`; consequently the `/files` category filter returns the
empty list for every category whose normalized key (backslashes mapped to
slashes, then slashes stripped) is non-empty. A category that normalizes to
the empty key — such as a bare slash — skips the filter instead and returns
all files. -/
theorem c10_category_filter_empty (docs : Docs)
    (hsep : ∀ e ∈ docs, ¬('/' ∈ e.name.toList)) :
    (∀ f ∈ supported_files docs, ¬('/' ∈ f.toList)) ∧
    (∀ c : String, stripSlashes (replaceBackslashes c.toList) ≠ [] →
      list_files docs (some c) = []) := by
  have hfiles : ∀ f ∈ supported_files docs, ¬('/' ∈ f.toList) := by
    intro f hf
    have h1 := mem_supported_files hf
    have h2 : f ∈ docs.map (fun e => e.name) := List.mem_of_mem_filter h1
    obtain ⟨e, he, hname⟩ := List.mem_map.mp h2
    rw [← hname]
    exact hsep e he
  refine ⟨hfiles, ?_⟩
  intro c hnorm
  have hcne : c.toList.isEmpty = false := by
    cases hc : c.toList with
    | nil =>
      rw [hc] at hnorm
      simp [replaceBackslashes, stripSlashes] at hnorm
    | cons a t => rfl
  have hn : (stripSlashes (replaceBackslashes c.toList)).isEmpty = false := by
    cases h : stripSlashes (replaceBackslashes c.toList) with
    | nil => exact absurd h hnorm
    | cons a t => rfl
  simp only [list_files, hcne, Bool.false_eq_true, if_false, hn]
  rw [List.filter_eq_nil_iff]
  intro f hf hpre
  have hp : (stripSlashes (replaceBackslashes c.toList) ++ ['/']) <+: f.toList :=
    List.isPrefixOf_iff_prefix.mp hpre
  obtain ⟨t, ht⟩ := hp
  have hmem : '/' ∈ f.toList := by
    rw [← ht]
    simp
  exact hfiles f hf hmem

/-- Witness for C10: a flat documents directory and the category `man`. -/
theorem c10_category_filter_empty_witness :
    (∀ e ∈ ([⟨"a.txt", 1, 1⟩] : Docs), ¬('/' ∈ e.name.toList)) ∧
    stripSlashes (replaceBackslashes ("man".toList)) ≠ [] ∧
    list_files [⟨"a.txt", 1, 1⟩] (some "man") = [] :=
  ⟨by decide, by decide,
    (c10_category_filter_empty [⟨"a.txt", 1, 1⟩] (by decide)).2 "man" (by decide)⟩

/-- Counterexample to C10 as stated: the category value `"/"` is a
non-empty string, yet it normalizes to the empty key, so the filter is
skipped and `/files` returns every file rather than the empty list. -/
theorem c10_category_filter_counterexample :
    ("/" : String) ≠ "" ∧
    (∀ e ∈ ([⟨"a.txt", 1, 1⟩] : Docs), ¬('/' ∈ e.name.toList)) ∧
    list_files [⟨"a.txt", 1, 1⟩] (some "/") ≠ [] :=
  ⟨by decide, by decide, by decide⟩
